import Mathlib

/-!
Verification of the intake-fivethirtyeight catalog plugin.

The Python source (`intake_fivethirtyeight.py`) is shallowly embedded below:
pure string helpers model the Python `str` methods used by the code
(`startswith`, `endswith`, `lower`, `find`, `replace`), the GitHub tree
snapshot is a record of a sha and a node list, fallible code returns
`Except`, the network transport is an explicit fetch oracle passed as a
function, and Python `dict` insertion (update in place, insertion order
preserved) is an association-list operation.
-/

/-! ## Python string primitives -/

/-- Does the first list start with the second?  Models Python
    `s.startswith(p)` on character lists. -/
def listStarts : List Char → List Char → Bool
  | _, [] => true
  | [], _ :: _ => false
  | c :: s, d :: p => c == d && listStarts s p

/-- Does the first list contain the second as a contiguous sublist?
    Models Python `s.find(sub) >= 0`. -/
def hasSub : List Char → List Char → Bool
  | [], sub => sub.isEmpty
  | c :: rest, sub => listStarts (c :: rest) sub || hasSub rest sub

/-- Python `s.startswith(p)`. -/
def pyStartswith (s p : String) : Bool := listStarts s.data p.data

/-- Python `s.endswith(p)`. -/
def pyEndswith (s p : String) : Bool := listStarts s.data.reverse p.data.reverse

/-- Python `s.find(sub) >= 0`, i.e. substring containment. -/
def pyContains (s sub : String) : Bool := hasSub s.data sub.data

/-- Python `s.lower()` (ASCII, which is all the code compares). -/
def pyLower (s : String) : String := String.mk (s.data.map Char.toLower)

/-- Worker for Python `s.replace(old, new)` with non-empty `old`: scan left
    to right, replace non-overlapping occurrences, never rescan the
    replacement text.  The `fuel` argument makes the recursion structural;
    `fuel = s.length` always suffices because every step consumes at least
    one character. -/
def replaceGo (old new : List Char) : List Char → Nat → List Char
  | s, 0 => s
  | [], _ + 1 => []
  | c :: rest, fuel + 1 =>
    if listStarts (c :: rest) old then
      new ++ replaceGo old new (List.drop (old.length - 1) rest) fuel
    else
      c :: replaceGo old new rest fuel

/-- Python `s.replace(old, new)`: all non-overlapping occurrences, left to
    right.  For empty `old` Python inserts `new` at every character
    boundary, including both ends. -/
def pyReplace (s old new : String) : String :=
  if old.data.isEmpty then
    String.mk (new.data ++ (s.data.map (fun c => c :: new.data)).flatten)
  else
    String.mk (replaceGo old.data new.data s.data s.data.length)

/-! ## Data model: the GitHub tree snapshot -/

/-- One node of the recursive tree listing: `{path, type}` with
    `type ∈ {"tree", "blob"}`. -/
structure TreeNode where
  path : String
  type : String
deriving DecidableEq

/-- The tree snapshot returned by the GitHub trees API: `{sha, tree}`. -/
structure GitTree where
  sha : String
  tree : List TreeNode
deriving DecidableEq

/-- Module constant `RAW_URL`. -/
def RAW_URL : String := "https://raw.githubusercontent.com"

/-- Module constant `GH_URL`. -/
def GH_URL : String := "https://www.github.com"

/-- Module constant `REPO`. -/
def REPO : String := "fivethirtyeight/data"

/-- Python exceptions the embedded code can raise: `IndexError` from
    `readme[0]` on an empty match list, and HTTP errors surfaced by
    `raise_for_status` on the documentation fetch. -/
inductive PyError where
  | indexError : PyError
  | httpError : String → PyError
deriving DecidableEq

/-- One row of the DataFrame built by `get_projects`:
    `{"Name": ..., "Description": ..., "URL": ...}`. -/
structure ProjRecord where
  Name : String
  Description : String
  URL : String
deriving DecidableEq

/-! ## get_projects -/

/-- The candidate filter of `get_projects`:
    `x['type'] == 'tree' and x['path'].find('/') < 0`. -/
def topLevelPred (x : TreeNode) : Bool :=
  x.type == "tree" && !(pyContains x.path "/")

/-- The readme predicate of `get_projects` for one candidate path:
    `x['type'] == 'blob' and x['path'].startswith(dataset['path'])
     and x['path'].lower().endswith('readme.md')`.
    Note the candidate path is used bare, with no trailing slash. -/
def docPred (cand : String) (x : TreeNode) : Bool :=
  x.type == "blob" && pyStartswith x.path cand &&
    pyEndswith (pyLower x.path) "readme.md"

/-- `readme = [x for x in gittree['tree'] if ...]` for one candidate. -/
def readmeMatches (tree : List TreeNode) (cand : String) : List TreeNode :=
  tree.filter (docPred cand)

/-- The body of the per-candidate loop of `get_projects`: build the browse
    URL, take `readme[0]` (raising `IndexError` when the match list is
    empty), fetch its raw text, and assemble the record.  `fetch` is the
    transport oracle standing for `requests.get(...)` plus
    `raise_for_status`. -/
def projectRecord (sha : String) (tree : List TreeNode)
    (fetch : String → Except String String) (dataset : TreeNode) :
    Except PyError ProjRecord :=
  match readmeMatches tree dataset.path with
  | [] => .error .indexError
  | rm :: _ =>
    match fetch (RAW_URL ++ "/" ++ REPO ++ "/" ++ sha ++ "/" ++ rm.path) with
    | .error e => .error (.httpError e)
    | .ok text =>
      .ok { Name := dataset.path
            Description := text
            URL := GH_URL ++ "/" ++ REPO ++ "/tree/" ++ sha ++ "/" ++ dataset.path }

/-- `get_projects(search_string, gittree)` with an injected snapshot (the
    branch that fetches a snapshot when none is given is the out-of-scope
    transport).  `none` models Python `None`; `some ""` models passing an
    empty search string, which still runs the filter.  The unused `render`
    parameter of the source is dropped. -/
def getProjects (searchString : Option String) (gt : GitTree)
    (fetch : String → Except String String) : Except PyError (List ProjRecord) :=
  let projectList := gt.tree.filter topLevelPred
  let filtered :=
    match searchString with
    | none => projectList
    | some s => projectList.filter (fun x => pyContains x.path s)
  filtered.mapM (projectRecord gt.sha gt.tree fetch)

/-! ## Python dict as an association list -/

/-- Python `d[k] = v`: update in place when the key exists (keeping its
    position), otherwise append at the end. -/
def dictInsert {β : Type} (d : List (String × β)) (k : String) (v : β) :
    List (String × β) :=
  match d with
  | [] => [(k, v)]
  | (k0, v0) :: rest =>
    if k0 = k then (k, v) :: rest else (k0, v0) :: dictInsert rest k v

/-- Python `d.get(k)`. -/
def dictLookup {β : Type} (d : List (String × β)) (k : String) : Option β :=
  match d with
  | [] => none
  | (k0, v) :: rest => if k0 = k then some v else dictLookup rest k

/-! ## Five38SubCatalog -/

/-- One `LocalCatalogEntry` registered by `Five38SubCatalog._load`
    (the fields the embedding needs: name, description, driver and the
    `urlpath` argument). -/
structure CatEntry where
  name : String
  description : String
  driver : String
  urlpath : String
deriving DecidableEq

/-- The csv filter of `Five38SubCatalog._load`:
    `x['type'] == 'blob' and x['path'].startswith(f"{self.name}/")
     and x['path'].lower().endswith('.csv')`. -/
def csvPred (name : String) (x : TreeNode) : Bool :=
  x.type == "blob" && pyStartswith x.path (name ++ "/") &&
    pyEndswith (pyLower x.path) ".csv"

/-- `output_list` of `Five38SubCatalog._load`. -/
def qualifyingCsvs (gt : GitTree) (name : String) : List TreeNode :=
  gt.tree.filter (csvPred name)

/-- `dataset_name = a_csv['path'].replace(f"{self.name}/","").replace('-','_')`:
    Python `replace` removes every occurrence of `"<name>/"`, not only a
    leading one. -/
def derivedName (name path : String) : String :=
  pyReplace (pyReplace path (name ++ "/") "") "-" "_"

/-- The entry built for one qualifying csv node. -/
def csvEntry (sha name : String) (x : TreeNode) : CatEntry :=
  { name := derivedName name x.path
    description := "data file for " ++ name
    driver := "csv"
    urlpath := RAW_URL ++ "/" ++ REPO ++ "/" ++ sha ++ "/" ++ x.path }

/-- `Five38SubCatalog._load` with an injected snapshot (the empty-snapshot
    refetch branch is the out-of-scope transport): filter the qualifying
    csv nodes and insert one entry per node into the `_entries` dict, keyed
    by the derived name. -/
def subCatalogLoad (gt : GitTree) (name : String) : List (String × CatEntry) :=
  (qualifyingCsvs gt name).foldl
    (fun es x => dictInsert es (derivedName name x.path) (csvEntry gt.sha name x)) []

/-- The state of a `Five38SubCatalog` instance that matters to `search`:
    its injected tree (`none` models the empty-dict default) and its name. -/
structure SubCatalogState where
  tree : Option GitTree
  name : String
deriving DecidableEq

/-- The instance `Five38SubCatalog()` built with no arguments: empty tree,
    class-level name. -/
def freshSubCatalog : SubCatalogState :=
  { tree := none, name := "fivethirtyeight_sources" }

/-- `Five38SubCatalog.search(self, text)`: `return Five38SubCatalog()` —
    the receiver and the keyword are both ignored. -/
def subCatalogSearch (_s : SubCatalogState) (_keyword : Option String) :
    SubCatalogState :=
  freshSubCatalog

/-! ## First facts about the string primitives -/

theorem listStarts_nil_right (s : List Char) : listStarts s [] = true := by
  cases s <;> rfl

theorem listStarts_self_append (p t : List Char) : listStarts (p ++ t) p = true := by
  induction p with
  | nil => exact listStarts_nil_right t
  | cons c rest ih => simp [listStarts, ih]

theorem pyContains_empty (s : String) : pyContains s "" = true := by
  unfold pyContains
  cases s.data with
  | nil => rfl
  | cons c rest => simp [hasSub, listStarts_nil_right]

theorem pyEndswith_append (a b : String) : pyEndswith (a ++ b) b = true := by
  unfold pyEndswith
  rw [show (a ++ b).data = a.data ++ b.data from String.data_append a b]
  rw [List.reverse_append]
  exact listStarts_self_append _ _

/-! ## Claim C2 (code bug): missing readme raises IndexError, not a
    distinct DocumentationMissing condition -/

/-- A snapshot with one top-level project directory and no readme blob at
    all: the readme match list for `"abc"` is empty. -/
def gtNoDoc : GitTree := ⟨"s2", [⟨"abc", "tree"⟩]⟩

/-- Claim C2: the spec requires a distinct, explicit `DocumentationMissing`
    condition when a project has no readme; the code instead evaluates
    `readme[0]` on the empty match list, raising a bare `IndexError`.
    Evaluating the embedded code at the failing input: the match list is
    empty and `get_projects` fails with the index error. -/
theorem getProjects_missing_readme_indexError :
    readmeMatches gtNoDoc.tree "abc" = [] ∧
    getProjects none gtNoDoc (fun _ => .ok "text") = .error .indexError :=
  ⟨rfl, rfl⟩

/-! ## Claim C5: empty keyword and absent keyword agree -/

/-- Claim C5: `get_projects` treats an empty-string keyword and an absent
    (`None`) keyword identically.  The empty string does run the filter
    branch (`"" != None`), but Python `path.find("") >= 0` always holds, so
    the filter keeps every candidate and the two calls return the same
    result for every snapshot and every transport oracle. -/
theorem getProjects_empty_keyword_eq_none (gt : GitTree)
    (fetch : String → Except String String) :
    getProjects (some "") gt fetch = getProjects none gt fetch := by
  show List.mapM (projectRecord gt.sha gt.tree fetch)
      ((gt.tree.filter topLevelPred).filter (fun x => pyContains x.path "")) =
    List.mapM (projectRecord gt.sha gt.tree fetch) (gt.tree.filter topLevelPred)
  rw [List.filter_eq_self.mpr (fun a _ => pyContains_empty a.path)]

/-! ## Claim C10: keyword matching no top-level directory gives ok [] -/

/-- Claim C10 (implicit): when the keyword is contained in no top-level
    `tree`-type node's path, `get_projects` returns normally with an empty
    record list — no error is raised and no documentation fetch happens
    (the result is `ok []` for every transport oracle, even one that always
    fails). -/
theorem getProjects_no_match_empty (gt : GitTree) (k : String)
    (h : (gt.tree.filter topLevelPred).all (fun x => !(pyContains x.path k)) = true) :
    ∀ fetch : String → Except String String,
      getProjects (some k) gt fetch = .ok [] := by
  intro fetch
  have hnil : (gt.tree.filter topLevelPred).filter (fun x => pyContains x.path k) = [] := by
    rw [List.filter_eq_nil_iff]
    intro a ha
    have := List.all_eq_true.mp h a ha
    simpa using this
  show List.mapM (projectRecord gt.sha gt.tree fetch)
      ((gt.tree.filter topLevelPred).filter (fun x => pyContains x.path k)) = .ok []
  rw [hnil]
  rfl

/-- Witness for C10 at a concrete input: a snapshot with one project
    `elections` and a keyword `zzz` occurring nowhere; the transport oracle
    always fails, yet the call returns `ok []`. -/
theorem getProjects_no_match_empty_witness :
    ((GitTree.mk "s" [⟨"elections", "tree"⟩, ⟨"elections/README.md", "blob"⟩]).tree.filter
        topLevelPred).all (fun x => !(pyContains x.path "zzz")) = true ∧
    getProjects (some "zzz")
      (GitTree.mk "s" [⟨"elections", "tree"⟩, ⟨"elections/README.md", "blob"⟩])
      (fun _ => .error "down") = .ok [] :=
  ⟨by decide,
   getProjects_no_match_empty
     (GitTree.mk "s" [⟨"elections", "tree"⟩, ⟨"elections/README.md", "blob"⟩])
     "zzz" (by decide) (fun _ => .error "down")⟩

/-! ## Claim C9: Sub-Catalog search ignores keyword and receiver -/

/-- Claim C9: `Five38SubCatalog.search` has no filtering effect: for every
    receiver state and every keyword (including `none`) it returns the
    fresh, unscoped default instance, so any two calls agree and the
    receiver is left untouched (the embedding is pure and the result does
    not depend on the receiver). -/
theorem subCatalog_search_constant :
    ∀ (s : SubCatalogState) (k : Option String),
      subCatalogSearch s k = freshSubCatalog ∧
      ∀ (s2 : SubCatalogState) (k2 : Option String),
        subCatalogSearch s k = subCatalogSearch s2 k2 :=
  fun _ _ => ⟨rfl, fun _ _ => rfl⟩

/-! ## Claim C1: the round-trip snapshot -/

/-- The round-trip snapshot of the claim: exactly one qualifying file at
    `abc/data-set.csv` for project `abc`. -/
def gtRound : GitTree := ⟨"s1", [⟨"abc/data-set.csv", "blob"⟩]⟩

/-- Counterexample to claim C1 as stated: the single entry produced for the
    round-trip snapshot is named `data_set.csv`, not `data_set` — the code
    only rewrites hyphens, it never strips the `.csv` extension, so the
    mapping has no key `data_set`. -/
theorem subCatalog_roundTrip_cex :
    (subCatalogLoad gtRound "abc").map Prod.fst = ["data_set.csv"] ∧
    dictLookup (subCatalogLoad gtRound "abc") "data_set" = none ∧
    ("data_set.csv" : String) ≠ "data_set" :=
  ⟨rfl, rfl, by decide⟩

/-- Claim C1 as amended: for every snapshot whose qualifying-csv scan for
    project `abc` yields exactly the one file `abc/data-set.csv`, the
    loaded Sub-Catalog holds exactly one entry, its name is `data_set.csv`
    (hyphen rewritten, extension kept), and its source url ends with
    `abc/data-set.csv`. -/
theorem subCatalog_roundTrip_amended (gt : GitTree)
    (h : qualifyingCsvs gt "abc" = [⟨"abc/data-set.csv", "blob"⟩]) :
    subCatalogLoad gt "abc" =
      [("data_set.csv", csvEntry gt.sha "abc" ⟨"abc/data-set.csv", "blob"⟩)] ∧
    (csvEntry gt.sha "abc" ⟨"abc/data-set.csv", "blob"⟩).name = "data_set.csv" ∧
    pyEndswith (csvEntry gt.sha "abc" ⟨"abc/data-set.csv", "blob"⟩).urlpath
      "abc/data-set.csv" = true := by
  refine ⟨?_, rfl, ?_⟩
  · unfold subCatalogLoad
    rw [h]
    rfl
  · exact pyEndswith_append (RAW_URL ++ "/" ++ REPO ++ "/" ++ gt.sha ++ "/") "abc/data-set.csv"

/-- Witness for the amended C1 at the concrete round-trip snapshot. -/
theorem subCatalog_roundTrip_witness :
    qualifyingCsvs gtRound "abc" = [⟨"abc/data-set.csv", "blob"⟩] ∧
    subCatalogLoad gtRound "abc" =
      [("data_set.csv", csvEntry "s1" "abc" ⟨"abc/data-set.csv", "blob"⟩)] :=
  ⟨rfl, (subCatalog_roundTrip_amended gtRound rfl).1⟩

/-! ## mapM machinery for get_projects -/

theorem exceptBind_ok {ε α β : Type} (a : α) (g : α → Except ε β) :
    (Except.ok a >>= g) = g a := rfl

theorem exceptBind_error {ε α β : Type} (e : ε) (g : α → Except ε β) :
    ((Except.error e : Except ε α) >>= g) = Except.error e := rfl

/-- A successful `mapM` over `Except` maps every output element back to
    some input element on which the function succeeded with it. -/
theorem mapM_ok_mem {ε α β : Type} (f : α → Except ε β) :
    ∀ (xs : List α) (ys : List β), xs.mapM f = .ok ys →
      ∀ y ∈ ys, ∃ x ∈ xs, f x = .ok y := by
  intro xs
  induction xs with
  | nil =>
    intro ys h y hy
    rw [List.mapM_nil] at h
    have h2 : Except.ok ([] : List β) = Except.ok ys := h
    injection h2 with h3
    subst h3
    cases hy
  | cons x xs ih =>
    intro ys h y hy
    rw [List.mapM_cons] at h
    cases hfx : f x with
    | error e => rw [hfx, exceptBind_error] at h; cases h
    | ok b =>
      rw [hfx, exceptBind_ok] at h
      cases hxs : xs.mapM f with
      | error e => rw [hxs, exceptBind_error] at h; cases h
      | ok bs =>
        rw [hxs, exceptBind_ok] at h
        have h2 : Except.ok (b :: bs) = Except.ok ys := h
        injection h2 with h3
        subst h3
        cases hy with
        | head => exact ⟨x, List.mem_cons_self x xs, hfx⟩
        | tail _ hmem =>
          obtain ⟨x0, hx0, hfx0⟩ := ih bs hxs y hmem
          exact ⟨x0, List.mem_cons_of_mem x hx0, hfx0⟩

/-- A successful `projectRecord` call names the record after the candidate,
    resolves the description through the first readme match (in snapshot
    order), and records the text the transport returned for it. -/
theorem projectRecord_ok_elim (sha : String) (tree : List TreeNode)
    (fetch : String → Except String String) (x : TreeNode) (r : ProjRecord)
    (h : projectRecord sha tree fetch x = .ok r) :
    r.Name = x.path ∧ ∃ rm rest, readmeMatches tree x.path = rm :: rest ∧
      fetch (RAW_URL ++ "/" ++ REPO ++ "/" ++ sha ++ "/" ++ rm.path) = .ok r.Description := by
  unfold projectRecord at h
  split at h
  · exact absurd h (by simp)
  · rename_i rm rest hm
    split at h
    · exact absurd h (by simp)
    · rename_i text hf
      injection h with h2
      subst h2
      exact ⟨rfl, rm, rest, hm, hf⟩

/-- A successful `mapM` of `projectRecord` reproduces the candidate paths
    as the record names, in order. -/
theorem mapM_projectRecord_names (sha : String) (tree : List TreeNode)
    (fetch : String → Except String String) :
    ∀ (xs : List TreeNode) (ys : List ProjRecord),
      xs.mapM (projectRecord sha tree fetch) = .ok ys →
      ys.map (fun r => r.Name) = xs.map (fun x => x.path) := by
  intro xs
  induction xs with
  | nil =>
    intro ys h
    rw [List.mapM_nil] at h
    have h2 : Except.ok ([] : List ProjRecord) = Except.ok ys := h
    injection h2 with h3
    subst h3
    rfl
  | cons x xs ih =>
    intro ys h
    rw [List.mapM_cons] at h
    cases hfx : projectRecord sha tree fetch x with
    | error e => rw [hfx, exceptBind_error] at h; cases h
    | ok r =>
      rw [hfx, exceptBind_ok] at h
      cases hxs : xs.mapM (projectRecord sha tree fetch) with
      | error e => rw [hxs, exceptBind_error] at h; cases h
      | ok rs =>
        rw [hxs, exceptBind_ok] at h
        have h2 : Except.ok (r :: rs) = Except.ok ys := h
        injection h2 with h3
        subst h3
        have hname : r.Name = x.path := (projectRecord_ok_elim sha tree fetch x r hfx).1
        simp [List.map_cons, hname, ih rs hxs]

/-- `find?` is the head of `filter`: connects the code's
    filter-then-index-zero idiom to the first satisfying node. -/
theorem find_eq_filter_head {α : Type} (p : α → Bool) :
    ∀ l : List α, l.find? p = (l.filter p).head? := by
  intro l
  induction l with
  | nil => rfl
  | cons a t ih =>
    cases hp : p a with
    | true =>
      rw [List.find?_cons_of_pos _ hp, List.filter_cons_of_pos hp, List.head?_cons]
    | false =>
      have hp' : ¬ (p a = true) := by simp [hp]
      rw [List.find?_cons_of_neg _ hp', List.filter_cons_of_neg hp', ih]

/-- Core of claim C3: every record of a successful `get_projects` call gets
    its description from the first node of the snapshot satisfying the
    readme predicate for the record's name. -/
theorem mapM_records_doc (gt : GitTree) (fetch : String → Except String String)
    (xs : List TreeNode) (recs : List ProjRecord)
    (h : List.mapM (projectRecord gt.sha gt.tree fetch) xs = .ok recs) :
    ∀ r ∈ recs, ∃ rm, gt.tree.find? (docPred r.Name) = some rm ∧
      fetch (RAW_URL ++ "/" ++ REPO ++ "/" ++ gt.sha ++ "/" ++ rm.path) = .ok r.Description := by
  intro r hr
  obtain ⟨x, _, hok⟩ := mapM_ok_mem (projectRecord gt.sha gt.tree fetch) xs recs h r hr
  obtain ⟨hname, rm, rest, hmm, hfetch⟩ := projectRecord_ok_elim gt.sha gt.tree fetch x r hok
  refine ⟨rm, ?_, hfetch⟩
  rw [hname, find_eq_filter_head]
  rw [show gt.tree.filter (docPred x.path) = rm :: rest from hmm]
  rfl

/-! ## Claim C3: where the description comes from -/

/-- A snapshot where project `abc` has no readme of its own but a sibling
    top-level directory `abcdef` — whose name extends `abc` as a string —
    does. -/
def gtOutside : GitTree :=
  ⟨"s3", [⟨"abc", "tree"⟩, ⟨"abcdef", "tree"⟩, ⟨"abcdef/README.md", "blob"⟩]⟩

/-- A transport oracle that labels the text by the url it was asked for. -/
def fetchOutside : String → Except String String :=
  fun u =>
    if u == RAW_URL ++ "/" ++ REPO ++ "/s3/abcdef/README.md" then .ok "ABCDEF-DOC"
    else .ok "OTHER"

/-- Counterexample to claim C3 as stated: the snapshot holds no blob at all
    under the directory `abc/`, yet `get_projects` resolves project `abc`'s
    description to the text of `abcdef/README.md` — a file outside that
    project directory — because the code tests `startswith(dataset['path'])`
    with no trailing slash. -/
theorem getProjects_description_outside_cex :
    gtOutside.tree.filter
        (fun x => x.type == "blob" && pyStartswith x.path ("abc" ++ "/")) = [] ∧
    Except.map (fun recs => recs.map (fun r => (r.Name, r.Description)))
        (getProjects none gtOutside fetchOutside) =
      .ok [("abc", "ABCDEF-DOC"), ("abcdef", "ABCDEF-DOC")] :=
  ⟨rfl, rfl⟩

/-- Claim C3 as amended: every record of a successful `get_projects` call
    takes its description from the first snapshot node (in snapshot order)
    that is a blob, whose path starts with the record's name as a plain
    string prefix — which may lie outside the project directory when
    another top-level name extends the project's name — and whose
    lowercased path ends in `readme.md`. -/
theorem getProjects_description_first_match (gt : GitTree)
    (fetch : String → Except String String) (ss : Option String)
    (recs : List ProjRecord) (h : getProjects ss gt fetch = .ok recs) :
    ∀ r ∈ recs, ∃ rm, gt.tree.find? (docPred r.Name) = some rm ∧
      fetch (RAW_URL ++ "/" ++ REPO ++ "/" ++ gt.sha ++ "/" ++ rm.path) = .ok r.Description := by
  cases ss with
  | none =>
    exact mapM_records_doc gt fetch (gt.tree.filter topLevelPred) recs h
  | some s =>
    exact mapM_records_doc gt fetch
      ((gt.tree.filter topLevelPred).filter (fun x => pyContains x.path s)) recs h

/-- A snapshot with the readme inside the project, for the witness. -/
def gtClean : GitTree := ⟨"sW", [⟨"el", "tree"⟩, ⟨"el/README.md", "blob"⟩]⟩

/-- Witness for the amended C3 at a concrete successful call. -/
theorem getProjects_description_first_match_witness :
    getProjects none gtClean (fun _ => .ok "DOC") =
      .ok [{ Name := "el", Description := "DOC",
             URL := GH_URL ++ "/" ++ REPO ++ "/tree/sW/el" }] ∧
    (∃ rm, gtClean.tree.find? (docPred "el") = some rm ∧
      (fun _ => (.ok "DOC" : Except String String))
          (RAW_URL ++ "/" ++ REPO ++ "/" ++ gtClean.sha ++ "/" ++ rm.path) = .ok "DOC") := by
  refine ⟨rfl, ?_⟩
  exact getProjects_description_first_match gtClean (fun _ => .ok "DOC") none
    [{ Name := "el", Description := "DOC", URL := GH_URL ++ "/" ++ REPO ++ "/tree/sW/el" }]
    rfl
    { Name := "el", Description := "DOC", URL := GH_URL ++ "/" ++ REPO ++ "/tree/sW/el" }
    (List.mem_singleton.mpr rfl)

/-! ## Claim C4: keyword filtering -/

/-- Claim C4: for a non-empty keyword `k`, a successful filtered call
    returns only records whose name contains `k` as a (case-sensitive)
    substring, and its names are a subset of the names of a successful
    unfiltered call on the same snapshot. -/
theorem getProjects_keyword_filter_subset (gt : GitTree)
    (fetch : String → Except String String) (k : String) (_hk : k ≠ "")
    (recs recs0 : List ProjRecord)
    (h : getProjects (some k) gt fetch = .ok recs)
    (h0 : getProjects none gt fetch = .ok recs0) :
    (∀ r ∈ recs, pyContains r.Name k = true) ∧
    (∀ r ∈ recs, ∃ r0 ∈ recs0, r0.Name = r.Name) := by
  have hm : List.mapM (projectRecord gt.sha gt.tree fetch)
      ((gt.tree.filter topLevelPred).filter (fun x => pyContains x.path k)) = .ok recs := h
  have hm0 : List.mapM (projectRecord gt.sha gt.tree fetch)
      (gt.tree.filter topLevelPred) = .ok recs0 := h0
  constructor
  · intro r hr
    obtain ⟨x, hx, hok⟩ :=
      mapM_ok_mem (projectRecord gt.sha gt.tree fetch) _ recs hm r hr
    have hcont : pyContains x.path k = true := by
      simpa using (List.mem_filter.mp hx).2
    rw [(projectRecord_ok_elim gt.sha gt.tree fetch x r hok).1]
    exact hcont
  · intro r hr
    have h1 : r.Name ∈ recs.map (fun r => r.Name) := List.mem_map_of_mem _ hr
    rw [mapM_projectRecord_names gt.sha gt.tree fetch _ recs hm] at h1
    have h2 : r.Name ∈ (gt.tree.filter topLevelPred).map (fun x => x.path) :=
      List.map_subset _ (fun a ha => List.mem_of_mem_filter ha) h1
    rw [← mapM_projectRecord_names gt.sha gt.tree fetch _ recs0 hm0] at h2
    obtain ⟨r0, hr0, he⟩ := List.mem_map.mp h2
    exact ⟨r0, hr0, he⟩

/-- The snapshot for the C4 witness. -/
def gtElect : GitTree := ⟨"s4", [⟨"elections", "tree"⟩, ⟨"elections/README.md", "blob"⟩]⟩

/-- The single record both calls of the C4 witness produce. -/
def recElect : ProjRecord :=
  { Name := "elections", Description := "DOC",
    URL := GH_URL ++ "/" ++ REPO ++ "/tree/s4/elections" }

/-- Witness for C4 at a concrete input where both calls succeed. -/
theorem getProjects_keyword_filter_subset_witness :
    getProjects (some "elect") gtElect (fun _ => .ok "DOC") = .ok [recElect] ∧
    getProjects none gtElect (fun _ => .ok "DOC") = .ok [recElect] ∧
    (∀ r ∈ [recElect], pyContains r.Name "elect" = true) ∧
    (∀ r ∈ [recElect], ∃ r0 ∈ [recElect], r0.Name = r.Name) :=
  ⟨rfl, rfl,
   (getProjects_keyword_filter_subset gtElect (fun _ => .ok "DOC") "elect"
     (by decide) [recElect] [recElect] rfl rfl).1,
   (getProjects_keyword_filter_subset gtElect (fun _ => .ok "DOC") "elect"
     (by decide) [recElect] [recElect] rfl rfl).2⟩

/-! ## Claim C6: what the Sub-Catalog entry mapping holds -/

theorem dictLookup_insert {β : Type} (d : List (String × β)) (k0 k : String) (v : β) :
    dictLookup (dictInsert d k0 v) k = if k0 = k then some v else dictLookup d k := by
  induction d with
  | nil => rfl
  | cons p rest ih =>
    obtain ⟨kp, vp⟩ := p
    show dictLookup (if kp = k0 then (k0, v) :: rest else (kp, vp) :: dictInsert rest k0 v) k
        = if k0 = k then some v else dictLookup ((kp, vp) :: rest) k
    by_cases hp : kp = k0
    · rw [if_pos hp]
      show (if k0 = k then some v else dictLookup rest k)
          = if k0 = k then some v else dictLookup ((kp, vp) :: rest) k
      by_cases hk : k0 = k
      · rw [if_pos hk, if_pos hk]
      · rw [if_neg hk, if_neg hk]
        show dictLookup rest k = if kp = k then some vp else dictLookup rest k
        have hkpk : ¬ kp = k := by rw [hp]; exact hk
        rw [if_neg hkpk]
    · rw [if_neg hp]
      show (if kp = k then some vp else dictLookup (dictInsert rest k0 v) k)
          = if k0 = k then some v else (if kp = k then some vp else dictLookup rest k)
      by_cases hk : kp = k
      · simp only [if_pos hk]
        have hk0 : ¬ k0 = k := fun hc => hp (hk.trans hc.symm)
        rw [if_neg hk0]
      · simp only [if_neg hk]
        exact ih

theorem getLast?_cons_isSome {α : Type} (b : α) (bs : List α) :
    ∃ a, (b :: bs).getLast? = some a := by
  induction bs generalizing b with
  | nil => exact ⟨b, by simp⟩
  | cons c cs ih =>
    obtain ⟨a, ha⟩ := ih c
    exact ⟨a, by rw [List.getLast?_cons_cons]; exact ha⟩

/-- Looking a key up after folding dict insertions over a list yields the
    value of the LAST list element whose key matches, falling back to the
    initial dict: Python dict writes are last-write-wins. -/
theorem dictLookup_foldl_insert {α β : Type} (key : α → String) (val : α → β) :
    ∀ (l : List α) (d : List (String × β)) (k : String),
      dictLookup (l.foldl (fun es x => dictInsert es (key x) (val x)) d) k =
        ((l.filter (fun y => decide (key y = k))).getLast?).elim (dictLookup d k)
          (fun x => some (val x)) := by
  intro l
  induction l with
  | nil => intro d k; rfl
  | cons x t ih =>
    intro d k
    rw [List.foldl_cons, ih (dictInsert d (key x) (val x)) k, List.filter_cons]
    by_cases hx : key x = k
    · rw [if_pos (decide_eq_true hx)]
      cases hf : t.filter (fun y => decide (key y = k)) with
      | nil =>
        simp [dictLookup_insert, hx]
      | cons b bs =>
        rw [List.getLast?_cons_cons]
        obtain ⟨a, ha⟩ := getLast?_cons_isSome b bs
        rw [ha]
        rfl
    · rw [if_neg (fun hc => hx (of_decide_eq_true hc))]
      cases hl : (t.filter (fun y => decide (key y = k))).getLast? with
      | none =>
        show dictLookup (dictInsert d (key x) (val x)) k = dictLookup d k
        rw [dictLookup_insert, if_neg hx]
      | some a => rfl

/-- Claim C6 as amended: for every snapshot, project name and key `k`,
    looking `k` up in the loaded Sub-Catalog mapping yields exactly the
    entry built (from the raw host, the repository identifier, the
    snapshot's sha and the file's full path) for the LAST qualifying blob
    (path starts with `"<name>/"`, lowercased path ends in `.csv`) whose
    derived name — the path with every occurrence of `"<name>/"` removed
    (not just a leading prefix) and hyphens replaced by underscores —
    equals `k`; colliding derived names silently keep only the last blob's
    entry. -/
theorem subCatalogLoad_lookup_last (gt : GitTree) (name k : String) :
    dictLookup (subCatalogLoad gt name) k =
      (((qualifyingCsvs gt name).filter
          (fun b => decide (derivedName name b.path = k))).getLast?).map
        (csvEntry gt.sha name) := by
  unfold subCatalogLoad
  rw [dictLookup_foldl_insert (fun x => derivedName name x.path) (csvEntry gt.sha name)
      (qualifyingCsvs gt name) [] k]
  cases ((qualifyingCsvs gt name).filter
      (fun b => decide (derivedName name b.path = k))).getLast? with
  | none => rfl
  | some a => rfl

/-- The claim's name derivation, written from its words: strip the
    `"<project_name>/"` PREFIX (once, at the front only), then replace
    hyphens with underscores. -/
def specDerivedName (name path : String) : String :=
  pyReplace
    (if listStarts path.data (name ++ "/").data
     then String.mk (path.data.drop (name ++ "/").data.length)
     else path)
    "-" "_"

/-- A snapshot whose one qualifying blob repeats the `"<name>/"` pattern
    inside the path. -/
def gtRepeat : GitTree := ⟨"s6", [⟨"abc/abc/data.csv", "blob"⟩]⟩

/-- Counterexample to claim C6 as stated: the code removes EVERY occurrence
    of `"abc/"` (Python `replace`), so the blob `abc/abc/data.csv` produces
    an entry named `data.csv`, while stripping only the leading
    `"abc/"` — the claim's wording — would give `abc/data.csv`; the
    mapping has no entry under the claimed name. -/
theorem subCatalogLoad_name_replaceAll_cex :
    (subCatalogLoad gtRepeat "abc").map Prod.fst = ["data.csv"] ∧
    specDerivedName "abc" "abc/abc/data.csv" = "abc/data.csv" ∧
    dictLookup (subCatalogLoad gtRepeat "abc") "abc/data.csv" = none ∧
    ("data.csv" : String) ≠ "abc/data.csv" :=
  ⟨rfl, rfl, rfl, by decide⟩

/-! ## Five38Catalog.walk

The walker is modelled over an abstract catalog graph: catalogs are
identified by numbers, `resolve` gives the entry list of a catalog id
(cycles are representable, since `resolve` is an arbitrary function), and
each entry records its `container` marker, whether instantiating it (the
`item()` call plus the lazy load it triggers) succeeds, and which catalog
it resolves to.  An instantiation failure is the caught exception of the
source's `try`/`except`: it contributes nothing to `out` and the loop
continues with the siblings. -/

/-- One entry as the walker sees it: the `container` attribute, whether
    `item()` succeeds, and the nested catalog id it yields when it does. -/
structure WItem where
  container : String
  instOk : Bool
  target : Nat
deriving DecidableEq

/-- Python `".".join(l)`. -/
def dotJoin : List String → String
  | [] => ""
  | [x] => x
  | x :: y :: rest => x ++ "." ++ dotJoin (y :: rest)

/-- The loop of `Five38Catalog.walk` over the remaining entries: descend
    when the entry is a catalog and `depth > 1` (with `depth - 1`,
    swallowing instantiation failures), then record the entry itself under
    its dotted name, then continue with the remaining siblings.
    Terminates for every `resolve`, cyclic graphs included, because the
    recursion is bounded lexicographically by `(depth, entries)`. -/
def walkAux (resolve : Nat → List (String × WItem)) (depth : Nat)
    (entries : List (String × WItem)) (pre : List String)
    (out : List (String × WItem)) : List (String × WItem) :=
  match entries with
  | [] => out
  | (n, it) :: rest =>
    walkAux resolve depth rest pre
      (dictInsert
        (if _hcat : it.container = "catalog" ∧ 1 < depth then
          (if it.instOk then
            walkAux resolve (depth - 1) (resolve it.target) (pre ++ [n]) out
           else out)
         else out)
        (dotJoin (pre ++ [n])) it)
termination_by (depth, entries.length)
decreasing_by
  · exact Prod.Lex.left _ _ (by omega)
  · exact Prod.Lex.right _ (by simp only [List.length_cons]; omega)

/-- `walk(catalog, depth)` from the root: empty accumulated dict, empty
    name path. -/
def walkTop (resolve : Nat → List (String × WItem)) (cid : Nat) (depth : Nat) :
    List (String × WItem) :=
  walkAux resolve depth (resolve cid) [] []

theorem walkAux_nil (resolve : Nat → List (String × WItem)) (depth : Nat)
    (pre : List String) (out : List (String × WItem)) :
    walkAux resolve depth [] pre out = out := by
  rw [walkAux]

theorem walkAux_cons (resolve : Nat → List (String × WItem)) (depth : Nat)
    (n : String) (it : WItem) (rest : List (String × WItem))
    (pre : List String) (out : List (String × WItem)) :
    walkAux resolve depth ((n, it) :: rest) pre out =
      walkAux resolve depth rest pre
        (dictInsert
          (if _hcat : it.container = "catalog" ∧ 1 < depth then
            (if it.instOk then
              walkAux resolve (depth - 1) (resolve it.target) (pre ++ [n]) out
             else out)
           else out)
          (dotJoin (pre ++ [n])) it) := by
  rw [walkAux]

theorem dictLookup_insert_isSome {β : Type} (d : List (String × β))
    (k0 k : String) (v : β) (h : (dictLookup d k).isSome = true) :
    (dictLookup (dictInsert d k0 v) k).isSome = true := by
  rw [dictLookup_insert]
  by_cases hk : k0 = k
  · rw [if_pos hk]; rfl
  · rw [if_neg hk]; exact h

/-- The walker only ever adds to the accumulated dict: any key present
    before a (sub)walk is still present after it. -/
theorem walkAux_mono (resolve : Nat → List (String × WItem)) :
    ∀ (depth : Nat) (es : List (String × WItem)) (pre : List String)
      (out : List (String × WItem)) (k : String),
      (dictLookup out k).isSome = true →
      (dictLookup (walkAux resolve depth es pre out) k).isSome = true := by
  intro depth
  induction depth using Nat.strong_induction_on with
  | _ depth IHd =>
    intro es
    induction es with
    | nil =>
      intro pre out k h
      rw [walkAux_nil]
      exact h
    | cons p rest IHes =>
      obtain ⟨n, it⟩ := p
      intro pre out k h
      rw [walkAux_cons]
      apply IHes
      apply dictLookup_insert_isSome
      by_cases hc : it.container = "catalog" ∧ 1 < depth
      · rw [dif_pos hc]
        by_cases hi : it.instOk = true
        · rw [if_pos hi]
          exact IHd (depth - 1) (by omega) _ _ _ _ h
        · rw [if_neg hi]
          exact h
      · rw [dif_neg hc]
        exact h

/-- Every entry of the list being walked ends up recorded under its dotted
    name — including entries whose instantiation fails. -/
theorem walkAux_names (resolve : Nat → List (String × WItem)) :
    ∀ (es : List (String × WItem)) (depth : Nat) (pre : List String)
      (out : List (String × WItem)) (n : String) (it : WItem),
      (n, it) ∈ es →
      (dictLookup (walkAux resolve depth es pre out) (dotJoin (pre ++ [n]))).isSome = true := by
  intro es
  induction es with
  | nil =>
    intro depth pre out n it h
    cases h
  | cons p rest IH =>
    obtain ⟨n0, it0⟩ := p
    intro depth pre out n it h
    rw [walkAux_cons]
    rcases List.mem_cons.mp h with heq | hmem
    · have hn : n = n0 := congrArg Prod.fst heq
      apply walkAux_mono
      rw [hn, dictLookup_insert, if_pos rfl]
      rfl
    · exact IH depth pre _ n it hmem

/-! ## Claim C7: walk swallows descent failures and keeps every entry -/

/-- Claim C7: for every catalog graph (failures included) and every depth,
    each entry of the walked catalog — siblings of a failing entry and the
    failing entry itself alike — appears in the mapping `walk` returns,
    under its dotted name.  The embedding is total: an entry whose
    instantiation fails (`instOk = false`, the caught exception of the
    source) merely contributes nothing to the descent, and `walk` itself
    never fails. -/
theorem walk_contains_all_root_entries (resolve : Nat → List (String × WItem))
    (cid depth : Nat) (n : String) (it : WItem) (h : (n, it) ∈ resolve cid) :
    ∃ v, dictLookup (walkTop resolve cid depth) n = some v := by
  have hs := walkAux_names resolve (resolve cid) depth [] [] n it h
  rw [show dotJoin ([] ++ [n]) = n from rfl] at hs
  exact Option.isSome_iff_exists.mp hs

/-- The catalog graph for the C7 witness: the root has a healthy leaf, an
    entry whose instantiation fails, and a healthy nested catalog. -/
def resolveBad : Nat → List (String × WItem) :=
  fun i =>
    if i = 0 then
      [("good", ⟨"csv", true, 0⟩), ("bad", ⟨"catalog", false, 0⟩),
       ("nest", ⟨"catalog", true, 1⟩)]
    else if i = 1 then [("leaf", ⟨"csv", true, 0⟩)]
    else []

/-- Witness for C7: the failing entry `bad` is still present in the walk
    output at depth 3. -/
theorem walk_contains_all_root_entries_witness :
    (("bad", (⟨"catalog", false, 0⟩ : WItem)) ∈ resolveBad 0) ∧
    ∃ v, dictLookup (walkTop resolveBad 0 3) "bad" = some v :=
  ⟨by decide,
   walk_contains_all_root_entries resolveBad 0 3 "bad" ⟨"catalog", false, 0⟩ (by decide)⟩

/-! ## Claim C8: walk terminates and never recurses past the depth -/

/-- Any key a (sub)walk adds to the dict is the dotted join of a name path
    whose length lies between the current level and the current level plus
    the remaining descent budget `depth - 1`. -/
theorem walkAux_depth_bound (resolve : Nat → List (String × WItem)) :
    ∀ (depth : Nat) (es : List (String × WItem)) (pre : List String)
      (out : List (String × WItem)) (k : String),
      (dictLookup (walkAux resolve depth es pre out) k).isSome = true →
      (dictLookup out k).isSome = true ∨
        ∃ segs n, k = dotJoin (segs ++ [n]) ∧
          pre.length ≤ segs.length ∧ segs.length ≤ pre.length + (depth - 1) := by
  intro depth
  induction depth using Nat.strong_induction_on with
  | _ depth IHd =>
    intro es
    induction es with
    | nil =>
      intro pre out k h
      rw [walkAux_nil] at h
      exact Or.inl h
    | cons p rest IHes =>
      obtain ⟨n0, it0⟩ := p
      intro pre out k h
      rw [walkAux_cons] at h
      rcases IHes pre _ k h with h1 | h1
      · rw [dictLookup_insert] at h1
        by_cases hk : dotJoin (pre ++ [n0]) = k
        · right
          exact ⟨pre, n0, hk.symm, le_refl _, by omega⟩
        · rw [if_neg hk] at h1
          by_cases hc : it0.container = "catalog" ∧ 1 < depth
          · rw [dif_pos hc] at h1
            obtain ⟨hc1, hc2⟩ := hc
            by_cases hi : it0.instOk = true
            · rw [if_pos hi] at h1
              rcases IHd (depth - 1) (by omega) (resolve it0.target)
                  (pre ++ [n0]) out k h1 with h2 | h2
              · exact Or.inl h2
              · obtain ⟨segs, n, hkk, hlo, hhi⟩ := h2
                rw [List.length_append] at hlo hhi
                right
                refine ⟨segs, n, hkk, by simp at hlo; omega, ?_⟩
                simp only [List.length_singleton] at hhi
                omega
            · rw [if_neg hi] at h1
              exact Or.inl h1
          · rw [dif_neg hc] at h1
            exact Or.inl h1
      · obtain ⟨segs, n, hkk, hlo, hhi⟩ := h1
        exact Or.inr ⟨segs, n, hkk, hlo, hhi⟩

/-- Claim C8: `walk` terminates for every catalog graph (the embedding is a
    total function even over cyclic `resolve` graphs — the recursion is
    bounded by the depth), and it never recurses past the requested depth:
    every dotted name in the output of `walk` at depth `d` joins at most
    `d` segments — the walker descends only while `depth > 1`, recursing
    with `depth - 1`, so levels beyond the budget are reachable only as
    unexpanded catalog entries, never as expanded dotted names. -/
theorem walk_depth_bound (resolve : Nat → List (String × WItem)) (cid depth : Nat)
    (k : String) (h : (dictLookup (walkTop resolve cid depth) k).isSome = true) :
    ∃ segs n, k = dotJoin (segs ++ [n]) ∧ segs.length ≤ depth - 1 := by
  rcases walkAux_depth_bound resolve depth (resolve cid) [] [] k h with h1 | h1
  · simp [dictLookup] at h1
  · obtain ⟨segs, n, hkk, _, hhi⟩ := h1
    exact ⟨segs, n, hkk, by simpa using hhi⟩

/-- The 5-level nested chain catalog of the claim's scenario: catalogs
    `0..4` each hold a leaf and a nested catalog pointing one level
    deeper. -/
def resolveChain : Nat → List (String × WItem) :=
  fun i =>
    if i < 5 then [("leaf", ⟨"csv", true, 0⟩), ("sub", ⟨"catalog", true, i + 1⟩)]
    else []

/-- Witness for C8: walking the 5-level chain with depth 2 produces the
    dotted name `sub.leaf`, and the bound confirms it joins at most 2
    segments. -/
theorem walk_depth_bound_witness :
    (dictLookup (walkTop resolveChain 0 2) "sub.leaf").isSome = true ∧
    ∃ segs n, "sub.leaf" = dotJoin (segs ++ [n]) ∧ segs.length ≤ 2 - 1 := by
  have hs : (dictLookup (walkTop resolveChain 0 2) "sub.leaf").isSome = true := by
    simp [walkTop, walkAux_cons, walkAux_nil, resolveChain, dictInsert, dictLookup, dotJoin]
  exact ⟨hs, walk_depth_bound resolveChain 0 2 "sub.leaf" hs⟩
